import Mathlib

/-!
# Verification of the ophelia message-buffer core and id generator

Shallow embedding of `src/ophelia/voicerooms/message_buffer.py` and
`src/ophelia/utils/obj_utils.py`.

External collaborators (`ophelia.utils.text_utils`, `ophelia.output.output`,
`ophelia.settings`) are not part of the given sources; where a definition
depends on them it is either modelled from the specification's contracts
(doc comments marked `Modelled from the spec:`) or taken as a parameter.

Conventions of the embedding:
* `asyncio` effects are embedded sequentially: each operation is a function
  from the buffer state to the new state together with the list of dispatch
  attempts (`send_message` calls) it performed before returning.
* The transport is an oracle `TextChannel → List String → Bool` giving the
  success/failure outcome of each send; per the spec's contract the send
  collaborator reports failure as a result rather than raising.
* A batch is kept as its list of constituent lines (the wire text being
  their joined form); this keeps the grouping collaborator's ordering
  contract directly visible.
* Python `dict` (insertion ordered, unique keys) becomes an association
  list; `dict.setdefault(k, []).extend(v)` extends the first entry with the
  key or appends a fresh entry at the end.
* Timestamps (`datetime`, `time.time()`) are passed in explicitly.
-/

/-- A Discord text channel, reduced to the identity used for dict keys plus
its display name. -/
structure TextChannel where
  id : Nat
  name : String
deriving DecidableEq

/-- A message attachment (only the filename is used by the formatter). -/
structure Attachment where
  filename : String
deriving DecidableEq

/-- A message author (name, discriminator and id feed the header line). -/
structure Author where
  name : String
  discriminator : String
  id : Nat
deriving DecidableEq

/-- A Discord message, reduced to the fields `format_message` reads.
`created_at` is kept as its already-rendered `strftime` string. -/
structure Message where
  created_at : String
  channelName : String
  author : Author
  attachments : List Attachment
  content : String
  clean_content : String
deriving DecidableEq

/-- `LOG_WRAP = 1500` from `message_buffer.py`. -/
def LOG_WRAP : Nat := 1500

/-- Modelled from the spec: the `voicerooms_log_header` display template is
not in the given sources; per the spec it renders a human-readable
timestamp, the originating channel's name, the escaped author name, the
discriminator and the author id into one line. -/
def voicerooms_log_header (time channel name discrim id : String) : String :=
  "[" ++ time ++ "] #" ++ channel ++ " " ++ name ++ "#" ++ discrim ++ " (" ++ id ++ ")"

/-- Modelled from the spec: the `voicerooms_log_attachments` display
template is not in the given sources; per the spec it lists the escaped
filenames, comma-separated, in one line. -/
def voicerooms_log_attachments (files : String) : String :=
  "Attached: " ++ files

/-- Modelled from the spec: the `voicerooms_log_tail` display template is
not in the given sources; per the spec's round-trip property a tail line of
a content chunk of length `max_width` has length `max_width`, so the
template is length-preserving and is modelled as the chunk itself. -/
def voicerooms_log_tail (s : String) : String := s

/-- Modelled from the spec: the `voicerooms_raw_header` display template is
not in the given sources; per the spec it renders a timestamp, the relevant
channel's name and the raw text into a single line, with no escaping. -/
def voicerooms_raw_header (time channel text : String) : String :=
  "[" ++ time ++ "] #" ++ channel ++ ": " ++ text

/-- Modelled from the spec: `quotify` from `ophelia.utils.text_utils` is not
in the given sources; per the spec it wraps text in a visually distinct
quoting style, modelled as the Discord quote marker prefix. -/
def quotify (s : String) : String := "> " ++ s

/-- Character-level chunking with explicit fuel (the fuel is always
instantiated with the length of the list, which bounds the recursion depth
for any positive width). -/
def chunksGo (w : Nat) : Nat → List Char → List (List Char)
  | _, [] => []
  | 0, _ :: _ => []
  | n + 1, c :: cs => (c :: cs).take w :: chunksGo w n ((c :: cs).drop w)

/-- Modelled from the spec: `string_wrap` from `ophelia.utils.text_utils` is
not in the given sources; per the spec it splits one string into ordered
chunks each at most `max_width` characters, greedily (per the round-trip
property, a string of length `2 × max_width − 1` splits into a chunk of
length `max_width` followed by the remainder). -/
def string_wrap (s : String) (w : Nat) : List String :=
  (chunksGo w s.data.length s.data).map String.mk

/-- The header line `format_message` emits first. -/
def headerLine (esc : String → String) (m : Message) : String :=
  voicerooms_log_header m.created_at m.channelName (esc m.author.name)
    m.author.discriminator (toString m.author.id)

/-- The attachment-list line `format_message` emits when the message has
attachments. -/
def attachLine (esc : String → String) (m : Message) : String :=
  voicerooms_log_attachments
    (String.intercalate ", " (m.attachments.map fun a => esc a.filename))

/-- `MessageBuffer.format_message`, parameterised by the external
`escape_formatting` collaborator `esc` (not in the given sources; its
contract only says it neutralizes formatting directives). -/
def format_message (esc : String → String) (m : Message) : List String :=
  let withAttach :=
    if m.attachments = [] then [headerLine esc m]
    else [headerLine esc m, attachLine esc m]
  if m.content = "" then withAttach
  else withAttach ++ (string_wrap (quotify (esc m.clean_content)) LOG_WRAP).map voicerooms_log_tail

/-- The mutable state of a `MessageBuffer`: the destination→lines mapping
and the pending-event counter. The counter is an integer (a Python `int`),
so that its non-negativity is a provable property rather than a property of
the carrier type. -/
structure BufferState where
  message_buffer : List (TextChannel × List String)
  current_size : Int
deriving DecidableEq

/-- `MessageBuffer.__init__`: the buffer starts empty with counter `0`.
Note the constructor performs no validation of the configured threshold. -/
def MessageBuffer.init : BufferState := ⟨[], 0⟩

/-- `dict.setdefault(channel, []).extend(lines)`: extend the entry of
`channel` in place if present (first occurrence), otherwise append a fresh
entry at the end, as Python's insertion-ordered dict does. -/
def setdefault_extend : List (TextChannel × List String) → TextChannel → List String →
    List (TextChannel × List String)
  | [], c, ls => [(c, ls)]
  | (c', ls') :: rest, c, ls =>
    if c' = c then (c', ls' ++ ls) :: rest
    else (c', ls') :: setdefault_extend rest c ls

/-- One attempted `send_message` call: the destination, the batch of lines
whose joined text was sent, and the outcome reported by the transport. -/
structure Dispatch where
  channel : TextChannel
  lines : List String
  ok : Bool
deriving DecidableEq

section Buffer

variable (gr : List String → List (List String))
variable (oracle : TextChannel → List String → Bool)
variable (esc : String → String)
variable (bufferSize : Int)

/-- `MessageBuffer.dump`: for every destination in insertion order, group
its lines into batches via the external grouping collaborator `gr` and send
each batch; then set `current_size` to `0` and clear the mapping. The send
collaborator reports failure as an outcome (spec contract `send(destination,
text) -> success/failure`), so the loop runs to completion and the clear is
unconditional; the outcomes are recorded in the trace but `dump` itself
ignores them (its Python return value is `None`, here the cleared state). -/
def dump (st : BufferState) : BufferState × List Dispatch :=
  (⟨[], 0⟩,
    st.message_buffer.flatMap fun p => (gr p.2).map fun b => ⟨p.1, b, oracle p.1 b⟩)

/-- `MessageBuffer.log_message`: append the formatted lines under the lock,
increment the counter, then flush inline if the counter reached the
configured threshold (`BUFFER_SIZE`, from settings, taken as the parameter
`bufferSize`). -/
def log_message (st : BufferState) (channel : TextChannel) (m : Message) :
    BufferState × List Dispatch :=
  let st1 : BufferState :=
    ⟨setdefault_extend st.message_buffer channel (format_message esc m),
      st.current_size + 1⟩
  if bufferSize ≤ st1.current_size then dump gr oracle st1 else (st1, [])

/-- `MessageBuffer.log_system_msg`: append one raw header line under the
lock, increment the counter, then flush inline if the counter reached the
threshold. `now` stands for `datetime.utcnow()` already rendered. -/
def log_system_msg (st : BufferState) (log_channel text_channel : TextChannel)
    (now text : String) : BufferState × List Dispatch :=
  let st1 : BufferState :=
    ⟨setdefault_extend st.message_buffer log_channel
        [voicerooms_raw_header now text_channel.name text],
      st.current_size + 1⟩
  if bufferSize ≤ st1.current_size then dump gr oracle st1 else (st1, [])

end Buffer

/-- One external call into the buffer: a chat-message record, a system
record, or an explicit flush. -/
inductive Op where
  | msg (channel : TextChannel) (m : Message)
  | sys (log_channel text_channel : TextChannel) (now text : String)
  | flush
deriving DecidableEq

section Run

variable (gr : List String → List (List String))
variable (oracle : TextChannel → List String → Bool)
variable (esc : String → String)
variable (bufferSize : Int)

/-- Step semantics: run one call on the state, returning the new state and
the dispatch attempts the call performed before returning. -/
def stepOp (st : BufferState) : Op → BufferState × List Dispatch
  | .msg c m => log_message gr oracle esc bufferSize st c m
  | .sys lc tc now text => log_system_msg gr oracle bufferSize st lc tc now text
  | .flush => dump gr oracle st

/-- Run a sequence of calls, accumulating the dispatch attempts in order. -/
def runOps : BufferState → List Op → BufferState × List Dispatch
  | st, [] => (st, [])
  | st, op :: ops =>
    let p1 := stepOp gr oracle esc bufferSize st op
    let p2 := runOps p1.1 ops
    (p2.1, p1.2 ++ p2.2)

end Run

/-- Modelled from the spec: `group_strings` from `ophelia.utils.text_utils`
is not in the given sources; per the spec it packs an ordered list of
strings into the minimum number of size-bounded batches, greedily, keeping
relative order, a batch's size being the joined length with a one-character
separator between members. -/
def batchLen (b : List String) : Nat :=
  (b.map String.length).sum + (b.length - 1)

/-- Greedy packing loop: `cur` is the (nonempty) batch being filled. -/
def groupGo (maxLen : Nat) (cur : List String) : List String → List (List String)
  | [] => [cur]
  | l :: ls =>
    if batchLen (cur ++ [l]) ≤ maxLen then groupGo maxLen (cur ++ [l]) ls
    else cur :: groupGo maxLen [l] ls

/-- The Discord message length bound used by the grouping collaborator. -/
def GROUP_MAX : Nat := 2000

/-- Modelled from the spec: greedy order-preserving packing of lines into
size-bounded batches (see `batchLen`). -/
def group_strings (lines : List String) : List (List String) :=
  match lines with
  | [] => []
  | l :: ls => groupGo GROUP_MAX [l] ls

/-- `get_id` from `obj_utils.py`, with the current UNIX time `now`
(`int(time.time())`, a non-negative integer) passed explicitly. -/
def get_id (now : Nat) (type_identifier : Nat) (counter : Nat) : Nat :=
  let identifier := type_identifier
  let date := now % 100000000
  let count := counter + 1
  let check := identifier * date * count % 10
  date * 1000000 + identifier * 100000 + count * 10 + check

/-- Observer derived from the code's flush conditions: whether running `op`
on state `st` executes `dump` before returning (`log_*` flush exactly when
the incremented counter reaches the threshold; an explicit flush always
runs `dump`). -/
def ranDump (bufferSize : Int) (st : BufferState) : Op → Bool
  | .msg _ _ => decide (bufferSize ≤ st.current_size + 1)
  | .sys _ _ _ _ => decide (bufferSize ≤ st.current_size + 1)
  | .flush => true

/-- Follows the spec's words: "PendingCount always equals the number of
`record_*` calls since the BufferState was last cleared". The count is
recomputed over the call trace alone: each record call adds one, and the
count returns to zero exactly at the calls that run a flush (explicit
flushes, and records whose increment reaches the threshold). -/
def pendingSpec (bufferSize : Int) : Int → List Op → Int
  | c, [] => c
  | _, Op.flush :: ops => pendingSpec bufferSize 0 ops
  | c, Op.msg _ _ :: ops =>
    pendingSpec bufferSize (if bufferSize ≤ c + 1 then 0 else c + 1) ops
  | c, Op.sys _ _ _ _ :: ops =>
    pendingSpec bufferSize (if bufferSize ≤ c + 1 then 0 else c + 1) ops

/-- Follows the spec's words: the lines one record call appends for
destination `c` (a chat record appends its formatted lines to its log
channel, a system record appends its single raw line, a flush appends
nothing). -/
def opLines (esc : String → String) (c : TextChannel) : Op → List String
  | .msg ch m => if ch = c then format_message esc m else []
  | .sys lc tc now text => if lc = c then [voicerooms_raw_header now tc.name text] else []
  | .flush => []

/-- Follows the spec's words: destination `c`'s appended line sequence over
a call trace, in record order. -/
def appendedLines (esc : String → String) (c : TextChannel) (ops : List Op) : List String :=
  ops.flatMap (opLines esc c)

/-- The lines held for destination `c` in a buffer mapping (concatenated
over every entry with that key; on the unique-key mappings the operations
maintain, this is just `c`'s entry). -/
def bufLines (buf : List (TextChannel × List String)) (c : TextChannel) : List String :=
  (buf.filter fun p => decide (p.1 = c)).flatMap Prod.snd

/-- A concrete two-destination buffer state used for concrete evaluations:
two lines pending, one for each of two distinct channels. -/
def stAB : BufferState :=
  ⟨[(⟨1, "log-a"⟩, ["alpha"]), (⟨2, "log-b"⟩, ["beta"])], 2⟩

/-- A concrete message with no attachments and no content. -/
def mEmpty : Message :=
  ⟨"2024-01-01 00:00:00", "voice-42", ⟨"ann", "0001", 7⟩, [], "", ""⟩

/-- A concrete message with short content. -/
def mShort : Message :=
  ⟨"2024-01-01 00:00:00", "voice-42", ⟨"ann", "0001", 7⟩, [], "hi", "hi"⟩

/-- A concrete message whose content has length `2 × LOG_WRAP − 3`, so that
its quoted form has length `2 × LOG_WRAP − 1`. -/
def mLong : Message :=
  ⟨"2024-01-01 00:00:00", "voice-42", ⟨"ann", "0001", 7⟩, [], "x",
    String.mk (List.replicate 2997 'a')⟩

/-- C1: every flush ends with the buffer state cleared — after `dump`, the
destination-to-lines mapping is empty and the pending counter is `0`, for
every grouping collaborator and every transport oracle (in particular when
some or all sends report failure). The send collaborator reports failure as
a result value (spec §6), so the loop always reaches the clearing step. -/
theorem dump_clears_state (gr : List String → List (List String))
    (oracle : TextChannel → List String → Bool) (st : BufferState) :
    (dump gr oracle st).1.message_buffer = [] ∧ (dump gr oracle st).1.current_size = 0 :=
  ⟨rfl, rfl⟩

/-- C2 (counterexample): with both sends failing, `dump` still attempts both
destinations, but its caller-visible outcome (the returned state; in Python
`dump` returns `None` and mutates `self`) is identical to the run in which
every send succeeds — the failures are silently discarded, not surfaced to
the caller of the flush. -/
theorem dump_failure_not_surfaced_cex :
    (dump group_strings (fun _ _ => false) stAB).2.map Dispatch.ok = [false, false]
  ∧ (dump group_strings (fun _ _ => false) stAB).1
      = (dump group_strings (fun _ _ => true) stAB).1
  ∧ (dump group_strings (fun _ _ => false) stAB).2.map Dispatch.channel
      = [⟨1, "log-a"⟩, ⟨2, "log-b"⟩] :=
  ⟨rfl, rfl, rfl⟩

/-- C2 (amended): the dispatch attempts of a flush (destinations and batch
contents) and the state returned to the caller are independent of the send
outcomes — so a failure at one destination never prevents the others'
batches from being attempted — and every destination holding at least one
batch is attempted; but nothing about the outcomes is surfaced to the
caller. -/
theorem dump_attempts_all_regardless (gr : List String → List (List String))
    (o1 o2 : TextChannel → List String → Bool) (st : BufferState) :
    ((dump gr o1 st).2.map fun d => (d.channel, d.lines))
      = ((dump gr o2 st).2.map fun d => (d.channel, d.lines))
  ∧ (dump gr o1 st).1 = (dump gr o2 st).1
  ∧ ∀ p ∈ st.message_buffer, gr p.2 ≠ [] →
      p.1 ∈ (dump gr o1 st).2.map Dispatch.channel := by
  refine ⟨?_, rfl, ?_⟩
  · simp [dump, List.map_flatMap, List.map_map, Function.comp_def]
  · intro p hp hne
    obtain ⟨b, hb⟩ := List.exists_mem_of_ne_nil _ hne
    simp only [dump, List.map_flatMap, List.mem_flatMap, List.map_map, List.mem_map]
    exact ⟨p, hp, b, hb, rfl⟩

/-- C2 (witness for the amended theorem): the concrete two-destination
buffer, with an all-failing against an all-succeeding transport. -/
theorem dump_attempts_all_regardless_witness :
    ((dump group_strings (fun _ _ => false) stAB).2.map fun d => (d.channel, d.lines))
      = ((dump group_strings (fun _ _ => true) stAB).2.map fun d => (d.channel, d.lines))
  ∧ (⟨1, "log-a"⟩ : TextChannel)
      ∈ (dump group_strings (fun _ _ => false) stAB).2.map Dispatch.channel := by
  obtain ⟨h1, _h2, h3⟩ :=
    dump_attempts_all_regardless group_strings (fun _ _ => false) (fun _ _ => true) stAB
  exact ⟨h1, h3 (⟨1, "log-a"⟩, ["alpha"]) (by decide) (by decide)⟩

/-- C7 (counterexample): constructing the buffer under a non-positive
configured threshold does not fail — `MessageBuffer.__init__` performs no
validation — and the resulting buffer is fully usable: with threshold `0`,
recording one system message succeeds, dispatches it, and returns the
cleared state. -/
theorem threshold_validation_cex :
    (log_system_msg group_strings (fun _ _ => true) 0 MessageBuffer.init
        ⟨1, "log-a"⟩ ⟨2, "voice-42"⟩ "2024-01-01 00:00:00" "Room closed").1
      = MessageBuffer.init
  ∧ (log_system_msg group_strings (fun _ _ => true) 0 MessageBuffer.init
        ⟨1, "log-a"⟩ ⟨2, "voice-42"⟩ "2024-01-01 00:00:00" "Room closed").2
      = [⟨⟨1, "log-a"⟩,
          [voicerooms_raw_header "2024-01-01 00:00:00" "voice-42" "Room closed"], true⟩] :=
  ⟨rfl, rfl⟩

/-- C7 (amended): construction never validates the threshold and never
fails; under a non-positive threshold the buffer is usable, and every
record call immediately performs a full flush of the appended state. -/
theorem nonpositive_threshold_usable (gr : List String → List (List String))
    (oracle : TextChannel → List String → Bool) (esc : String → String)
    (bufferSize : Int) (hb : bufferSize ≤ 0) (st : BufferState)
    (hs : 0 ≤ st.current_size) (channel : TextChannel) (m : Message) :
    log_message gr oracle esc bufferSize st channel m =
      dump gr oracle
        ⟨setdefault_extend st.message_buffer channel (format_message esc m),
          st.current_size + 1⟩ := by
  simp only [log_message]
  rw [if_pos (by omega)]

/-- C7 (witness for the amended theorem): threshold `0` on the freshly
constructed buffer. -/
theorem nonpositive_threshold_usable_witness :
    log_message group_strings (fun _ _ => true) (fun s => s) 0 MessageBuffer.init
        ⟨1, "log-a"⟩ mShort =
      dump group_strings (fun _ _ => true)
        ⟨setdefault_extend MessageBuffer.init.message_buffer ⟨1, "log-a"⟩
          (format_message (fun s => s) mShort), MessageBuffer.init.current_size + 1⟩ :=
  nonpositive_threshold_usable group_strings (fun _ _ => true) (fun s => s) 0
    (by norm_num) MessageBuffer.init (by decide) ⟨1, "log-a"⟩ mShort

/-- A record call that does not reach the threshold dispatches nothing and
increments the counter by exactly one. -/
theorem stepOp_no_flush (gr : List String → List (List String))
    (oracle : TextChannel → List String → Bool) (esc : String → String)
    (bufferSize : Int) (st : BufferState) (op : Op) (hop : op ≠ Op.flush)
    (hcond : ¬ bufferSize ≤ st.current_size + 1) :
    (stepOp gr oracle esc bufferSize st op).2 = []
  ∧ (stepOp gr oracle esc bufferSize st op).1.current_size = st.current_size + 1 := by
  cases op with
  | flush => exact absurd rfl hop
  | msg ch m => simp [stepOp, log_message, hcond]
  | sys lc tc now text => simp [stepOp, log_system_msg, hcond]

/-- A trace of record calls too short to reach the threshold dispatches
nothing and leaves the counter at the number of calls. -/
theorem runOps_records_quiet (gr : List String → List (List String))
    (oracle : TextChannel → List String → Bool) (esc : String → String)
    (bufferSize : Int) :
    ∀ (ops : List Op) (st : BufferState), Op.flush ∉ ops →
      st.current_size + ops.length < bufferSize →
      (runOps gr oracle esc bufferSize st ops).2 = []
    ∧ (runOps gr oracle esc bufferSize st ops).1.current_size
        = st.current_size + ops.length := by
  intro ops
  induction ops with
  | nil => intro st _ _; exact ⟨rfl, by simp [runOps]⟩
  | cons op ops ih =>
    intro st hnf hlt
    have hop : op ≠ Op.flush := fun h => hnf (h ▸ List.mem_cons_self op ops)
    have hnf' : Op.flush ∉ ops := fun h => hnf (List.mem_cons_of_mem op h)
    have hlt' : st.current_size + ((ops.length : Int) + 1) < bufferSize := by
      simp only [List.length_cons] at hlt
      push_cast at hlt
      omega
    have hcond : ¬ bufferSize ≤ st.current_size + 1 := by omega
    obtain ⟨hs2, hs1⟩ := stepOp_no_flush gr oracle esc bufferSize st op hop hcond
    obtain ⟨h2, h1⟩ := ih (stepOp gr oracle esc bufferSize st op).1 hnf' (by rw [hs1]; omega)
    refine ⟨?_, ?_⟩
    · simp only [runOps]
      rw [hs2, h2]
      rfl
    · simp only [runOps]
      rw [h1, hs1]
      simp only [List.length_cons]
      push_cast
      ring

/-- C3: for every sequence of record calls, no dispatch occurs while the
pending count is below the configured threshold — a trace of fewer records
than the threshold dispatches nothing — and the record call whose increment
makes the count reach or exceed the threshold performs the whole flush
before returning: its result is exactly `dump` of the appended state. -/
theorem record_threshold_discipline (gr : List String → List (List String))
    (oracle : TextChannel → List String → Bool) (esc : String → String)
    (bufferSize : Int) (ops : List Op) (hrec : Op.flush ∉ ops) :
    ((ops.length : Int) < bufferSize →
      (runOps gr oracle esc bufferSize MessageBuffer.init ops).2 = [])
  ∧ (∀ (st : BufferState) (ch : TextChannel) (m : Message),
      bufferSize ≤ st.current_size + 1 →
      log_message gr oracle esc bufferSize st ch m =
        dump gr oracle
          ⟨setdefault_extend st.message_buffer ch (format_message esc m),
            st.current_size + 1⟩)
  ∧ (∀ (st : BufferState) (lc tc : TextChannel) (now text : String),
      bufferSize ≤ st.current_size + 1 →
      log_system_msg gr oracle bufferSize st lc tc now text =
        dump gr oracle
          ⟨setdefault_extend st.message_buffer lc
              [voicerooms_raw_header now tc.name text],
            st.current_size + 1⟩) := by
  refine ⟨fun hlen => ?_, fun st ch m h => ?_, fun st lc tc now text h => ?_⟩
  · refine (runOps_records_quiet gr oracle esc bufferSize ops MessageBuffer.init hrec ?_).1
    have h0 : MessageBuffer.init.current_size = 0 := rfl
    omega
  · simp only [log_message]
    rw [if_pos h]
  · simp only [log_system_msg]
    rw [if_pos h]

/-- C3 (witness): threshold `3`; two records are quiet, and a record on a
state holding two pending events flushes inside the call. -/
theorem record_threshold_discipline_witness :
    (runOps group_strings (fun _ _ => true) (fun s => s) 3 MessageBuffer.init
        [Op.sys ⟨1, "log-a"⟩ ⟨2, "voice-42"⟩ "t1" "one",
          Op.sys ⟨1, "log-a"⟩ ⟨2, "voice-42"⟩ "t2" "two"]).2 = []
  ∧ log_message group_strings (fun _ _ => true) (fun s => s) 3 stAB ⟨1, "log-a"⟩ mShort =
      dump group_strings (fun _ _ => true)
        ⟨setdefault_extend stAB.message_buffer ⟨1, "log-a"⟩
            (format_message (fun s => s) mShort),
          stAB.current_size + 1⟩ := by
  obtain ⟨h1, h2, _⟩ :=
    record_threshold_discipline group_strings (fun _ _ => true) (fun s => s) 3
      [Op.sys ⟨1, "log-a"⟩ ⟨2, "voice-42"⟩ "t1" "one",
        Op.sys ⟨1, "log-a"⟩ ⟨2, "voice-42"⟩ "t2" "two"] (by decide)
  exact ⟨h1 (by norm_num), h2 stAB ⟨1, "log-a"⟩ mShort (by decide)⟩

/-- The counter after one call: zero exactly when the call ran `dump`, and
the old value plus one (one per logged event, however many lines the event
produced) otherwise. -/
theorem stepOp_size (gr : List String → List (List String))
    (oracle : TextChannel → List String → Bool) (esc : String → String)
    (bufferSize : Int) (st : BufferState) (op : Op) :
    (stepOp gr oracle esc bufferSize st op).1.current_size
      = if ranDump bufferSize st op then 0 else st.current_size + 1 := by
  cases op with
  | flush => simp [stepOp, dump, ranDump]
  | msg ch m =>
    by_cases h : bufferSize ≤ st.current_size + 1
    · simp [stepOp, log_message, ranDump, h, dump]
    · simp [stepOp, log_message, ranDump, h]
  | sys lc tc now text =>
    by_cases h : bufferSize ≤ st.current_size + 1
    · simp [stepOp, log_system_msg, ranDump, h, dump]
    · simp [stepOp, log_system_msg, ranDump, h]

/-- The counter over a trace follows the spec's counting law. -/
theorem runOps_size (gr : List String → List (List String))
    (oracle : TextChannel → List String → Bool) (esc : String → String)
    (bufferSize : Int) :
    ∀ (ops : List Op) (st : BufferState),
      (runOps gr oracle esc bufferSize st ops).1.current_size
        = pendingSpec bufferSize st.current_size ops := by
  intro ops
  induction ops with
  | nil => intro st; simp [runOps, pendingSpec]
  | cons op ops ih =>
    intro st
    simp only [runOps]
    rw [ih]
    cases op with
    | flush => simp [stepOp, dump, pendingSpec]
    | msg ch m =>
      by_cases h : bufferSize ≤ st.current_size + 1
      · simp [stepOp, log_message, h, dump, pendingSpec]
      · simp [stepOp, log_message, h, pendingSpec]
    | sys lc tc now text =>
      by_cases h : bufferSize ≤ st.current_size + 1
      · simp [stepOp, log_system_msg, h, dump, pendingSpec]
      · simp [stepOp, log_system_msg, h, pendingSpec]

/-- The spec's counting law never goes negative. -/
theorem pendingSpec_nonneg (bufferSize : Int) :
    ∀ (ops : List Op) (c : Int), 0 ≤ c → 0 ≤ pendingSpec bufferSize c ops := by
  intro ops
  induction ops with
  | nil => intro c h; simpa [pendingSpec] using h
  | cons op ops ih =>
    intro c h
    cases op with
    | flush => exact ih 0 le_rfl
    | msg ch m =>
      refine ih _ ?_
      split <;> omega
    | sys lc tc now text =>
      refine ih _ ?_
      split <;> omega

/-- C4: `current_size` always equals the number of record calls since the
buffer was last cleared (the spec's counting law `pendingSpec`, recomputed
over the trace); it is never negative; and one call changes it either to
`0` — exactly when the call ran `dump` — or to its value plus one, one per
logged event regardless of how many lines the event produced. -/
theorem current_size_invariant (gr : List String → List (List String))
    (oracle : TextChannel → List String → Bool) (esc : String → String)
    (bufferSize : Int) (ops : List Op) :
    (runOps gr oracle esc bufferSize MessageBuffer.init ops).1.current_size
      = pendingSpec bufferSize 0 ops
  ∧ 0 ≤ (runOps gr oracle esc bufferSize MessageBuffer.init ops).1.current_size
  ∧ ∀ (st : BufferState) (op : Op),
      if ranDump bufferSize st op
      then (stepOp gr oracle esc bufferSize st op).1.current_size = 0
      else (stepOp gr oracle esc bufferSize st op).1.current_size
        = st.current_size + 1 := by
  refine ⟨runOps_size gr oracle esc bufferSize ops MessageBuffer.init, ?_, fun st op => ?_⟩
  · rw [runOps_size gr oracle esc bufferSize ops MessageBuffer.init]
    exact pendingSpec_nonneg bufferSize ops 0 le_rfl
  · cases hr : ranDump bufferSize st op <;> simp [stepOp_size, hr]

/-- C9: `get_id` encodes its inputs and the current time into the digit
layout `TTTTTTTTinnnnC`: it equals
`d·1000000 + t·100000 + (c+1)·10 + k` with `d = s % 10^8` and
`k = t·d·(c+1) % 10`, and whenever `t ≤ 9` and `c+1 ≤ 9999` the timestamp,
type tag, counter and check digit are each recoverable from the result by
decimal decomposition. -/
theorem get_id_digit_layout (s t c : Nat) (ht : t ≤ 9) (hc : c + 1 ≤ 9999) :
    get_id s t c =
      s % 100000000 * 1000000 + t * 100000 + (c + 1) * 10
        + t * (s % 100000000) * (c + 1) % 10
  ∧ get_id s t c % 10 = t * (s % 100000000) * (c + 1) % 10
  ∧ get_id s t c / 10 % 10000 = c + 1
  ∧ get_id s t c / 100000 % 10 = t
  ∧ get_id s t c / 1000000 = s % 100000000 := by
  have hd : s % 100000000 < 100000000 := Nat.mod_lt _ (by norm_num)
  have hk : t * (s % 100000000) * (c + 1) % 10 < 10 := Nat.mod_lt _ (by norm_num)
  refine ⟨rfl, ?_, ?_, ?_, ?_⟩ <;>
  · simp only [get_id]
    generalize t * (s % 100000000) * (c + 1) % 10 = k at hk ⊢
    generalize s % 100000000 = d at hd ⊢
    omega

/-- C9 (witness): a concrete timestamp, tag and counter. -/
theorem get_id_digit_layout_witness :
    get_id 1700000000 3 41 / 10 % 10000 = 42
  ∧ get_id 1700000000 3 41 / 100000 % 10 = 3
  ∧ get_id 1700000000 3 41 / 1000000 = 1700000000 % 100000000 := by
  obtain ⟨_, _, h2, h3, h4⟩ := get_id_digit_layout 1700000000 3 41 (by norm_num) (by norm_num)
  exact ⟨h2, h3, h4⟩

/-- Greedy packing keeps every line, in order: flattening the batches of
`groupGo` returns the pending batch followed by the remaining input. -/
theorem groupGo_flatten (maxLen : Nat) :
    ∀ (ls cur : List String), (groupGo maxLen cur ls).flatten = cur ++ ls := by
  intro ls
  induction ls with
  | nil => intro cur; simp [groupGo]
  | cons l ls ih =>
    intro cur
    simp only [groupGo]
    split
    · rw [ih]; simp
    · simp [ih]

/-- The modelled grouping collaborator preserves the line sequence. -/
theorem group_strings_flatten (lines : List String) :
    (group_strings lines).flatten = lines := by
  cases lines with
  | nil => rfl
  | cons l ls => simp [group_strings, groupGo_flatten]

/-- `format_message` always emits at least the header line. -/
theorem format_message_ne_nil (esc : String → String) (m : Message) :
    format_message esc m ≠ [] := by
  simp only [format_message]
  split <;> split <;> simp

/-- A destination absent from the mapping holds no lines. -/
theorem bufLines_eq_nil (c : TextChannel) :
    ∀ buf : List (TextChannel × List String), c ∉ buf.map Prod.fst →
      bufLines buf c = [] := by
  intro buf
  induction buf with
  | nil => intro _; rfl
  | cons q rest ih =>
    intro h
    obtain ⟨k, kls⟩ := q
    simp only [List.map_cons, List.mem_cons, not_or] at h
    obtain ⟨h1, h2⟩ := h
    have hk : ¬ k = c := fun e => h1 e.symm
    rw [bufLines, List.filter_cons, if_neg (by simp [hk])]
    exact ih h2

/-- One mapping entry's contribution to a destination's line view. -/
theorem bufLines_cons (k : TextChannel) (kls : List String)
    (rest : List (TextChannel × List String)) (c' : TextChannel) :
    bufLines ((k, kls) :: rest) c'
      = (if k = c' then kls else []) ++ bufLines rest c' := by
  by_cases h : k = c' <;> simp [bufLines, List.filter_cons, h]

/-- Appending a record's lines via `setdefault_extend` appends them to the
destination's line view and leaves every other destination's view
unchanged (on the unique-key mappings the buffer maintains). -/
theorem bufLines_setdefault (c c' : TextChannel) (ls : List String) :
    ∀ buf : List (TextChannel × List String), (buf.map Prod.fst).Nodup →
      bufLines (setdefault_extend buf c ls) c'
        = bufLines buf c' ++ if c = c' then ls else [] := by
  intro buf
  induction buf with
  | nil =>
    intro _
    by_cases h : c = c'
    · subst h; simp [bufLines, setdefault_extend, List.filter_cons]
    · simp [bufLines, setdefault_extend, List.filter_cons, h]
  | cons q rest ih =>
    intro hn
    obtain ⟨k, kls⟩ := q
    simp only [List.map_cons, List.nodup_cons] at hn
    obtain ⟨hk, hrest⟩ := hn
    by_cases hkc : k = c
    · subst hkc
      simp only [setdefault_extend, eq_self_iff_true, if_true]
      by_cases hc' : k = c'
      · subst hc'
        rw [bufLines_cons, bufLines_cons, bufLines_eq_nil _ rest hk]
        simp
      · rw [bufLines_cons, bufLines_cons]
        simp [hc']
    · simp only [setdefault_extend, if_neg hkc]
      rw [bufLines_cons, bufLines_cons, ih hrest]
      simp [List.append_assoc]

/-- The keys after `setdefault_extend`: unchanged when the destination is
already present, appended at the end otherwise. -/
theorem setdefault_keys (c : TextChannel) (ls : List String) :
    ∀ buf : List (TextChannel × List String),
      (setdefault_extend buf c ls).map Prod.fst
        = if c ∈ buf.map Prod.fst then buf.map Prod.fst
          else buf.map Prod.fst ++ [c] := by
  intro buf
  induction buf with
  | nil => simp [setdefault_extend]
  | cons q rest ih =>
    obtain ⟨k, kls⟩ := q
    by_cases hkc : k = c
    · subst hkc; simp [setdefault_extend]
    · simp only [setdefault_extend, if_neg hkc, List.map_cons, ih]
      by_cases hc : c ∈ rest.map Prod.fst
      · rw [if_pos hc, if_pos (by simp [List.mem_cons, hc])]
      · rw [if_neg hc, if_neg (by simp [List.mem_cons, hc]; exact fun e => hkc e.symm)]
        simp

/-- `setdefault_extend` preserves key uniqueness. -/
theorem setdefault_keys_nodup (buf : List (TextChannel × List String))
    (c : TextChannel) (ls : List String) (h : (buf.map Prod.fst).Nodup) :
    ((setdefault_extend buf c ls).map Prod.fst).Nodup := by
  rw [setdefault_keys]
  split
  · exact h
  · next hc => simp [List.nodup_append, h, hc]

/-- The flush's dispatch stream, restricted to one destination and
flattened, recovers exactly that destination's buffered lines, provided the
grouping collaborator preserves the line sequence. -/
theorem dispatch_lines_to (gr : List String → List (List String))
    (oracle : TextChannel → List String → Bool) (c : TextChannel)
    (hgr : ∀ l, (gr l).flatten = l) :
    ∀ buf : List (TextChannel × List String),
      ((((buf.flatMap fun p => (gr p.2).map fun b =>
            (⟨p.1, b, oracle p.1 b⟩ : Dispatch)).filter
          fun d => decide (d.channel = c)).map Dispatch.lines)).flatten
        = bufLines buf c := by
  intro buf
  induction buf with
  | nil => simp [bufLines]
  | cons p rest ih =>
    obtain ⟨k, kls⟩ := p
    simp only [List.flatMap_cons, List.filter_append, List.map_append,
      List.flatten_append, ih]
    by_cases hkc : k = c
    · subst hkc
      have hfil : ((gr kls).map fun b => (⟨k, b, oracle k b⟩ : Dispatch)).filter
          (fun d => decide (d.channel = k)) = (gr kls).map fun b => ⟨k, b, oracle k b⟩ :=
        List.filter_eq_self.mpr (by
          intro d hd
          simp only [List.mem_map] at hd
          obtain ⟨b, _, rfl⟩ := hd
          simp)
      rw [hfil, List.map_map]
      simp [Function.comp_def, hgr, bufLines, List.filter_cons]
    · have hfil : ((gr kls).map fun b => (⟨k, b, oracle k b⟩ : Dispatch)).filter
          (fun d => decide (d.channel = c)) = [] :=
        List.filter_eq_nil_iff.mpr (by
          intro d hd
          simp only [List.mem_map] at hd
          obtain ⟨b, _, rfl⟩ := hd
          simp [hkc])
      rw [hfil]
      simp [bufLines, List.filter_cons, hkc]

/-- If a flush dispatched nothing, every entry of the flushed mapping was
empty (the grouping collaborator cannot drop lines). -/
theorem dump_quiet_entries (gr : List String → List (List String))
    (oracle : TextChannel → List String → Bool) (st : BufferState)
    (hgr : ∀ l, (gr l).flatten = l)
    (h : (dump gr oracle st).2 = []) : ∀ p ∈ st.message_buffer, p.2 = [] := by
  intro p hp
  have h' : ((gr p.2).map fun b => (⟨p.1, b, oracle p.1 b⟩ : Dispatch)) = [] :=
    List.flatMap_eq_nil_iff.mp h p hp
  have h2 : gr p.2 = [] := List.map_eq_nil_iff.mp h'
  have h3 := hgr p.2
  rw [h2] at h3
  simpa using h3.symm

/-- After appending a nonempty line list, some entry is nonempty. -/
theorem setdefault_has_nonempty (c : TextChannel) (ls : List String) (hls : ls ≠ []) :
    ∀ buf : List (TextChannel × List String),
      ∃ p ∈ setdefault_extend buf c ls, p.2 ≠ [] := by
  intro buf
  induction buf with
  | nil => exact ⟨(c, ls), by simp [setdefault_extend], hls⟩
  | cons q rest ih =>
    obtain ⟨k, kls⟩ := q
    by_cases hkc : k = c
    · subst hkc
      refine ⟨(k, kls ++ ls), ?_, ?_⟩
      · simp [setdefault_extend]
      · simp [List.append_eq_nil, hls]
    · obtain ⟨p, hp, hp2⟩ := ih
      refine ⟨p, ?_, hp2⟩
      simp only [setdefault_extend, if_neg hkc]
      exact List.mem_cons_of_mem _ hp

/-- Main trace invariant: over a trace in which no flush completed (no
dispatch was emitted), each destination's line view grows by exactly the
recorded lines, in record order, and key uniqueness is preserved. -/
theorem runOps_append_lines (gr : List String → List (List String))
    (oracle : TextChannel → List String → Bool) (esc : String → String)
    (bufferSize : Int) (c : TextChannel) (hgr : ∀ l, (gr l).flatten = l) :
    ∀ (ops : List Op) (st : BufferState),
      (runOps gr oracle esc bufferSize st ops).2 = [] →
      (st.message_buffer.map Prod.fst).Nodup →
      bufLines (runOps gr oracle esc bufferSize st ops).1.message_buffer c
          = bufLines st.message_buffer c ++ appendedLines esc c ops
      ∧ ((runOps gr oracle esc bufferSize st ops).1.message_buffer.map Prod.fst).Nodup := by
  intro ops
  induction ops with
  | nil => intro st _ hn; exact ⟨by simp [runOps, appendedLines], hn⟩
  | cons op ops ih =>
    intro st hq hn
    simp only [runOps] at hq ⊢
    obtain ⟨hq1, hq2⟩ := List.append_eq_nil.mp hq
    cases op with
    | flush =>
      have hempty : ∀ p ∈ st.message_buffer, p.2 = [] :=
        dump_quiet_entries gr oracle st hgr hq1
      have hbl : bufLines st.message_buffer c = [] := by
        refine List.flatMap_eq_nil_iff.mpr ?_
        intro p hp
        exact hempty p (List.mem_of_mem_filter hp)
      have hst : (stepOp gr oracle esc bufferSize st Op.flush).1 = (⟨[], 0⟩ : BufferState) :=
        rfl
      rw [hst] at hq2 ⊢
      obtain ⟨h1, h2⟩ := ih ⟨[], 0⟩ hq2 (by simp)
      refine ⟨?_, h2⟩
      rw [h1, hbl]
      simp [appendedLines, opLines, bufLines]
    | msg ch m =>
      by_cases hcross : bufferSize ≤ st.current_size + 1
      · exfalso
        obtain ⟨p, hp, hp2⟩ :=
          setdefault_has_nonempty ch (format_message esc m)
            (format_message_ne_nil esc m) st.message_buffer
        have hq1' : (dump gr oracle
            ⟨setdefault_extend st.message_buffer ch (format_message esc m),
              st.current_size + 1⟩).2 = [] := by
          simpa [stepOp, log_message, hcross] using hq1
        exact hp2 (dump_quiet_entries gr oracle _ hgr hq1' p hp)
      · have hst : stepOp gr oracle esc bufferSize st (Op.msg ch m) =
            (⟨setdefault_extend st.message_buffer ch (format_message esc m),
              st.current_size + 1⟩, []) := by
          simp [stepOp, log_message, hcross]
        rw [hst] at hq2 ⊢
        obtain ⟨h1, h2⟩ := ih _ hq2 (setdefault_keys_nodup _ _ _ hn)
        refine ⟨?_, h2⟩
        rw [h1, bufLines_setdefault ch c (format_message esc m) _ hn]
        simp [appendedLines, opLines, List.append_assoc]
    | sys lc tc now text =>
      by_cases hcross : bufferSize ≤ st.current_size + 1
      · exfalso
        obtain ⟨p, hp, hp2⟩ :=
          setdefault_has_nonempty lc [voicerooms_raw_header now tc.name text]
            (by simp) st.message_buffer
        have hq1' : (dump gr oracle
            ⟨setdefault_extend st.message_buffer lc
                [voicerooms_raw_header now tc.name text],
              st.current_size + 1⟩).2 = [] := by
          simpa [stepOp, log_system_msg, hcross] using hq1
        exact hp2 (dump_quiet_entries gr oracle _ hgr hq1' p hp)
      · have hst : stepOp gr oracle esc bufferSize st (Op.sys lc tc now text) =
            (⟨setdefault_extend st.message_buffer lc
                [voicerooms_raw_header now tc.name text],
              st.current_size + 1⟩, []) := by
          simp [stepOp, log_system_msg, hcross]
        rw [hst] at hq2 ⊢
        obtain ⟨h1, h2⟩ := ih _ hq2 (setdefault_keys_nodup _ _ _ hn)
        refine ⟨?_, h2⟩
        rw [h1, bufLines_setdefault lc c [voicerooms_raw_header now tc.name text] _ hn]
        simp [appendedLines, opLines, List.append_assoc]

/-- C5: for every destination, concatenating (in dispatch order) the
batches a flush dispatches to that destination yields exactly the line
sequence the recorded events appended for it, in record order — provided
the external grouping collaborator preserves relative order (flattening its
batches gives back its input) and no flush completed earlier in the trace
(the trace emitted no dispatch). -/
theorem flush_order_preserved (gr : List String → List (List String))
    (oracle : TextChannel → List String → Bool) (esc : String → String)
    (bufferSize : Int) (ops : List Op) (c : TextChannel)
    (hgr : ∀ l, (gr l).flatten = l)
    (hq : (runOps gr oracle esc bufferSize MessageBuffer.init ops).2 = []) :
    ((((dump gr oracle
          (runOps gr oracle esc bufferSize MessageBuffer.init ops).1).2.filter
        fun d => decide (d.channel = c)).map Dispatch.lines)).flatten
      = appendedLines esc c ops := by
  obtain ⟨h1, _⟩ :=
    runOps_append_lines gr oracle esc bufferSize c hgr ops MessageBuffer.init hq (by simp [MessageBuffer.init])
  have hd : (dump gr oracle (runOps gr oracle esc bufferSize MessageBuffer.init ops).1).2
      = (runOps gr oracle esc bufferSize MessageBuffer.init ops).1.message_buffer.flatMap
          fun p => (gr p.2).map fun b => (⟨p.1, b, oracle p.1 b⟩ : Dispatch) := rfl
  rw [hd, dispatch_lines_to gr oracle c hgr, h1]
  rfl

/-- C5 (witness): two records to two destinations under threshold `10`,
grouped by the modelled greedy collaborator. -/
theorem flush_order_preserved_witness :
    (runOps group_strings (fun _ _ => true) (fun s => s) 10 MessageBuffer.init
        [Op.msg ⟨1, "log-a"⟩ mShort,
          Op.sys ⟨1, "log-a"⟩ ⟨2, "voice-42"⟩ "t1" "one"]).2 = []
  ∧ ((((dump group_strings (fun _ _ => true)
          (runOps group_strings (fun _ _ => true) (fun s => s) 10 MessageBuffer.init
            [Op.msg ⟨1, "log-a"⟩ mShort,
              Op.sys ⟨1, "log-a"⟩ ⟨2, "voice-42"⟩ "t1" "one"]).1).2.filter
        fun d => decide (d.channel = (⟨1, "log-a"⟩ : TextChannel))).map Dispatch.lines)).flatten
      = appendedLines (fun s => s) ⟨1, "log-a"⟩
          [Op.msg ⟨1, "log-a"⟩ mShort,
            Op.sys ⟨1, "log-a"⟩ ⟨2, "voice-42"⟩ "t1" "one"] := by
  refine ⟨by decide, ?_⟩
  exact flush_order_preserved group_strings (fun _ _ => true) (fun s => s) 10
    [Op.msg ⟨1, "log-a"⟩ mShort, Op.sys ⟨1, "log-a"⟩ ⟨2, "voice-42"⟩ "t1" "one"]
    ⟨1, "log-a"⟩ group_strings_flatten (by decide)

/-- Chunking the empty character list yields no chunks, whatever the fuel. -/
theorem chunksGo_empty (w n : Nat) : chunksGo w n [] = [] := by
  cases n <;> rfl

/-- A nonempty list that fits in one chunk is one chunk. -/
theorem chunksGo_single (w : Nat) :
    ∀ (n : Nat) (l : List Char), l ≠ [] → l.length ≤ w → l.length ≤ n →
      chunksGo w n l = [l] := by
  intro n l hne hlw hln
  cases l with
  | nil => exact absurd rfl hne
  | cons ch cs =>
    cases n with
    | zero => simp at hln
    | succ m =>
      have ht : (ch :: cs).take w = ch :: cs := List.take_of_length_le hlw
      have hd : (ch :: cs).drop w = [] := List.drop_eq_nil_of_le hlw
      simp [chunksGo, ht, hd, chunksGo_empty]

/-- A list longer than one chunk but at most two chunks splits greedily into
a full first chunk and the remainder. -/
theorem chunksGo_pair (w : Nat) :
    ∀ (n : Nat) (l : List Char), w < l.length → l.length ≤ 2 * w → l.length ≤ n →
      chunksGo w n l = [l.take w, l.drop w] := by
  intro n l hwl hl2 hln
  cases l with
  | nil => simp at hwl
  | cons ch cs =>
    cases n with
    | zero => simp at hln
    | succ m =>
      simp only [List.length_cons] at hwl hl2 hln
      have hw : 0 < w := by omega
      have hdne : (ch :: cs).drop w ≠ [] := by
        intro h
        have hlen := List.length_drop w (ch :: cs)
        rw [h] at hlen
        simp [List.length_cons] at hlen
        omega
      have hdlen : ((ch :: cs).drop w).length ≤ w := by
        rw [List.length_drop]
        simp only [List.length_cons]
        omega
      have hdm : ((ch :: cs).drop w).length ≤ m := by
        rw [List.length_drop]
        simp only [List.length_cons]
        omega
      rw [show chunksGo w (m + 1) (ch :: cs)
            = (ch :: cs).take w :: chunksGo w m ((ch :: cs).drop w) from rfl,
        chunksGo_single w m ((ch :: cs).drop w) hdne hdlen hdm]

/-- A nonempty string no longer than the wrap width wraps to itself alone. -/
theorem string_wrap_single (s : String) (w : Nat) (hne : s ≠ "") (hlen : s.length ≤ w) :
    string_wrap s w = [s] := by
  have hd : s.data ≠ [] := by
    intro h
    apply hne
    cases s with
    | mk d =>
      simp only at h
      subst h
      rfl
  unfold string_wrap
  rw [chunksGo_single w s.data.length s.data hd hlen le_rfl]
  rfl

/-- A string of more than one and at most two chunks wraps to exactly two
chunks, the first of full width. -/
theorem string_wrap_pair (s : String) (w : Nat) (h1 : w < s.length) (h2 : s.length ≤ 2 * w) :
    ∃ t1 t2, string_wrap s w = [t1, t2] ∧ t1.length = w := by
  refine ⟨String.mk (s.data.take w), String.mk (s.data.drop w), ?_, ?_⟩
  · unfold string_wrap
    rw [chunksGo_pair w s.data.length s.data h1 h2 le_rfl]
    rfl
  · show (s.data.take w).length = w
    rw [List.length_take]
    exact min_eq_left (Nat.le_of_lt h1)

/-- The modelled quote marker, at the level of character data. -/
theorem quotify_data (s : String) : (quotify s).data = '>' :: ' ' :: s.data := rfl

/-- Quoting never produces the empty string. -/
theorem quotify_ne_empty (s : String) : quotify s ≠ "" := by
  intro h
  have h2 := congrArg String.data h
  rw [quotify_data] at h2
  simp at h2

/-- Quoting adds exactly the two marker characters. -/
theorem quotify_length (s : String) : (quotify s).length = s.length + 2 := by
  show (quotify s).data.length = s.data.length + 2
  rw [quotify_data]
  simp [List.length_cons]

/-- The modelled tail template marks a chunk without changing it, so
mapping it over the chunks is the identity. -/
theorem map_log_tail (l : List String) : l.map voicerooms_log_tail = l := by
  induction l with
  | nil => rfl
  | cons x xs ih => simp [voicerooms_log_tail, ih]

/-- C6: `format_message` emits the header line first; an event with neither
attachments nor content yields only the header; the tail lines are exactly
the chunks of wrapping the quoted, escaped content at width `LOG_WRAP =
1500` (escaping applied before quoting and wrapping); content whose
escaped-and-quoted form is shorter than the wrap width yields exactly one
tail line; and content whose escaped-and-quoted form has length
`2·1500 − 1` yields exactly two tail lines, the first of length `1500`. -/
theorem format_message_spec (esc : String → String) (m : Message) :
    (∃ rest, format_message esc m = headerLine esc m :: rest)
  ∧ (m.attachments = [] → m.content = "" → format_message esc m = [headerLine esc m])
  ∧ (m.content ≠ "" → format_message esc m =
      (if m.attachments = [] then [headerLine esc m]
        else [headerLine esc m, attachLine esc m])
        ++ string_wrap (quotify (esc m.clean_content)) LOG_WRAP)
  ∧ (m.content ≠ "" → m.attachments = [] →
      (quotify (esc m.clean_content)).length < LOG_WRAP →
      format_message esc m = [headerLine esc m, quotify (esc m.clean_content)])
  ∧ (m.content ≠ "" → m.attachments = [] →
      (quotify (esc m.clean_content)).length = 2 * LOG_WRAP - 1 →
      ∃ t1 t2, format_message esc m = [headerLine esc m, t1, t2]
        ∧ t1.length = LOG_WRAP) := by
  have h3 : m.content ≠ "" → format_message esc m =
      (if m.attachments = [] then [headerLine esc m]
        else [headerLine esc m, attachLine esc m])
        ++ string_wrap (quotify (esc m.clean_content)) LOG_WRAP := by
    intro hc
    by_cases ha : m.attachments = [] <;>
      simp [format_message, hc, ha, map_log_tail]
  refine ⟨?_, ?_, h3, ?_, ?_⟩
  · by_cases hc : m.content = ""
    · by_cases ha : m.attachments = []
      · exact ⟨[], by simp [format_message, hc, ha]⟩
      · exact ⟨[attachLine esc m], by simp [format_message, hc, ha]⟩
    · rw [h3 hc]
      by_cases ha : m.attachments = []
      · rw [if_pos ha]
        exact ⟨string_wrap (quotify (esc m.clean_content)) LOG_WRAP, rfl⟩
      · rw [if_neg ha]
        exact ⟨attachLine esc m :: string_wrap (quotify (esc m.clean_content)) LOG_WRAP, rfl⟩
  · intro ha hc
    simp [format_message, hc, ha]
  · intro hc ha hlen
    rw [h3 hc, if_pos ha,
      string_wrap_single (quotify (esc m.clean_content)) LOG_WRAP
        (quotify_ne_empty _) (Nat.le_of_lt hlen)]
    rfl
  · intro hc ha hlen
    obtain ⟨t1, t2, hw, hl⟩ :=
      string_wrap_pair (quotify (esc m.clean_content)) LOG_WRAP
        (by rw [hlen]; norm_num [LOG_WRAP]) (by rw [hlen]; norm_num [LOG_WRAP])
    rw [h3 hc, if_pos ha, hw]
    exact ⟨t1, t2, rfl, hl⟩

/-- C6 (witness): an empty event, a short-content event and a
`2·1500 − 1`-length quoted-content event. -/
theorem format_message_spec_witness :
    format_message (fun s => s) mEmpty = [headerLine (fun s => s) mEmpty]
  ∧ format_message (fun s => s) mShort = [headerLine (fun s => s) mShort, "> hi"]
  ∧ ∃ t1 t2, format_message (fun s => s) mLong = [headerLine (fun s => s) mLong, t1, t2]
      ∧ t1.length = LOG_WRAP := by
  refine ⟨?_, ?_, ?_⟩
  · exact (format_message_spec (fun s => s) mEmpty).2.1 rfl rfl
  · have h := (format_message_spec (fun s => s) mShort).2.2.2.1 (by decide) rfl (by decide)
    rw [h]
    rfl
  · refine (format_message_spec (fun s => s) mLong).2.2.2.2 (by decide) rfl ?_
    show (quotify (String.mk (List.replicate 2997 'a'))).length = 2 * LOG_WRAP - 1
    rw [quotify_length]
    show (List.replicate 2997 'a').length + 2 = 2 * LOG_WRAP - 1
    rw [List.length_replicate]
    norm_num [LOG_WRAP]

/-- C10: an explicit flush is permitted in any state, including the empty
one: `dump` on the empty buffer performs zero dispatches and leaves the
state empty, and a second consecutive flush adds no dispatches, so two
consecutive flushes dispatch exactly what a single flush dispatches. -/
theorem dump_empty_and_idempotent (gr : List String → List (List String))
    (oracle : TextChannel → List String → Bool) :
    (dump gr oracle MessageBuffer.init).2 = []
  ∧ (dump gr oracle MessageBuffer.init).1 = MessageBuffer.init
  ∧ ∀ st : BufferState,
      (dump gr oracle (dump gr oracle st).1).2 = []
    ∧ (dump gr oracle st).2 ++ (dump gr oracle (dump gr oracle st).1).2
        = (dump gr oracle st).2 := by
  refine ⟨rfl, rfl, fun st => ⟨?h1, ?h2⟩⟩
  case h1 => simp [dump]
  case h2 => simp [dump]
